import Mathlib

/-!
Shallow embedding of the HotelMonitoringUtility scraping pipeline.

The definitions below are translated from the repository source:
* `packages/scraper/src/utils.ts` — `parsePrice`, `extractHotelId`,
  `isValidBookingUrl`
* `apps/backend/src/scraper.ts` — `parsePriceString`,
  `extractHotelIdFromUrl`, `isValidBookingUrl`, `scrapeHotelViaGraphQL`
* `packages/scraper/src/index.ts` — `interceptGraphQLData`,
  `extractAvailabilityData`
* `apps/backend/src/resolvers.ts` — the `addHotel` and `scrapeHotel`
  mutations over the Prisma store
* the Prisma migration (`DailyPrice_hotelId_checkInDate_key` unique index)

JavaScript numbers are modelled as `Option ℚ`: `some q` is the ordinary
number `q`, `none` is `NaN`.  The inputs handled by this code base never
exercise binary-float rounding (prices have at most a few decimal digits),
so rationals are a faithful carrier; what matters here is the `NaN`
propagation of `parseFloat`, which `Option` captures exactly.
-/

namespace HotelMonitoring

/-- Characters removed by the JS `replace(/[€$£¥\s]/g, '')` step of both
price parsers.  Lean's `Char.isWhitespace` covers the whitespace characters
(`' '`, `'\t'`, `'\r'`, `'\n'`) that can occur in scraped price strings. -/
def isStrippedChar (c : Char) : Bool :=
  c == '€' || c == '$' || c == '£' || c == '¥' || c.isWhitespace

/-- The currency-and-whitespace stripping step: a global regex replace by
the empty string is exactly a filter. -/
def cleanChars (cs : List Char) : List Char :=
  cs.filter (fun c => !isStrippedChar c)

/-- JS `String.prototype.includes` specialised to a single character. -/
def hasChar (c : Char) : List Char → Bool
  | [] => false
  | a :: rest => a == c || hasChar c rest

/-- JS `String.prototype.replace('K', '')` with a plain (non-regex) search
string removes only the first occurrence. -/
def removeFirst (c : Char) : List Char → List Char
  | [] => []
  | a :: rest => if a == c then rest else a :: removeFirst c rest

/-- Numeric value of a list of decimal digit characters, most significant
first (the empty list has value 0, as in JS where the digits beyond the
parsed prefix simply contribute nothing). -/
def digitsToNat (ds : List Char) : ℕ :=
  ds.foldl (fun a c => 10 * a + (c.toNat - 48)) 0

/-- Value `int.frac` denoted by an integer digit list and a fractional
digit list. -/
def mantissaVal (intDs fracDs : List Char) : ℚ :=
  (digitsToNat intDs : ℚ) + (digitsToNat fracDs : ℚ) / (10 ^ fracDs.length)

/-- Whether a character list starts with the given character. -/
def startsWithChar (c : Char) : List Char → Bool
  | [] => false
  | a :: _ => a == c

/-- Model of the JS global `parseFloat` on the character data of its
argument: an optional sign, then a maximal run of digits, then optionally a
dot and a second maximal run of digits; everything after that prefix is
ignored.  `none` is `NaN` (no digit could be parsed).  The exponent form
(`1e3`) and `Infinity` never occur in the strings this repository feeds to
`parseFloat` and are not modelled. -/
def parseFloatChars (cs : List Char) : Option ℚ :=
  let sgn : ℚ := if startsWithChar '-' cs then -1 else 1
  let rest := if startsWithChar '-' cs || startsWithChar '+' cs then cs.tail else cs
  let intDs := rest.takeWhile Char.isDigit
  let rest2 := rest.dropWhile Char.isDigit
  let fracDs : List Char :=
    if startsWithChar '.' rest2 then rest2.tail.takeWhile Char.isDigit else []
  if intDs.isEmpty && fracDs.isEmpty then none
  else some (sgn * mantissaVal intDs fracDs)

/-- Body of `parsePrice` from `packages/scraper/src/utils.ts` on character lists.
Mirrors the source line by line: empty input returns 0; currency glyphs and
whitespace are stripped; a string containing `K` (resp. `M`) has its first
`K` (resp. `M`) removed and the `parseFloat` of the remainder multiplied by
1000 (resp. 1000000) — with no `NaN` guard, so `none` (`NaN`) propagates;
otherwise `parseFloat(clean) || 0` maps `NaN` (and 0) to 0. -/
def parsePriceChars (cs : List Char) : Option ℚ :=
  if cs.isEmpty then some 0
  else
    let clean := cleanChars cs
    if hasChar 'K' clean then
      (parseFloatChars (removeFirst 'K' clean)).map (fun q => q * 1000)
    else if hasChar 'M' clean then
      (parseFloatChars (removeFirst 'M' clean)).map (fun q => q * 1000000)
    else some ((parseFloatChars clean).getD 0)

/-- Function `parsePrice(priceStr)` from `packages/scraper/src/utils.ts`. -/
def parsePrice (s : String) : Option ℚ :=
  parsePriceChars s.data

/-- Body of `parsePriceString(priceStr)` from `apps/backend/src/scraper.ts`,
translated independently from its own source text (same regex, same
branches, local variable `numberPart` instead of `num`). -/
def parsePriceStringChars (cs : List Char) : Option ℚ :=
  if cs.isEmpty then some 0
  else
    let cleanPrice := cleanChars cs
    if hasChar 'K' cleanPrice then
      (parseFloatChars (removeFirst 'K' cleanPrice)).map (fun numberPart => numberPart * 1000)
    else if hasChar 'M' cleanPrice then
      (parseFloatChars (removeFirst 'M' cleanPrice)).map (fun numberPart => numberPart * 1000000)
    else some ((parseFloatChars cleanPrice).getD 0)

/-- Function `parsePriceString(priceStr)` from `apps/backend/src/scraper.ts`. -/
def parsePriceString (s : String) : Option ℚ :=
  parsePriceStringChars s.data

/-- JS `String.prototype.includes` with a multi-character search string. -/
def hasSubstr (pat : List Char) : List Char → Bool
  | [] => pat.isEmpty
  | c :: rest => pat.isPrefixOf (c :: rest) || hasSubstr pat rest

/-- The components of a parsed URL that this repository reads:
`urlObj.hostname`, `urlObj.pathname` and the raw query string behind
`urlObj.searchParams`. -/
structure URLRec where
  hostname : String
  pathname : String
  search : String
  deriving DecidableEq, Repr

/-- Model of the WHATWG `new URL(url)` constructor as used by the Node
runtime, for plain absolute `http(s)` URLs without userinfo or percent
escapes — the only URL shapes this repository handles.  `none` models the
`TypeError` thrown for a string that does not parse: every call site wraps
the constructor in `try`/`catch`.  The host is lowercased as the WHATWG
parser does; an empty host is invalid; an optional `:port` is not part of
`hostname`; an absent path canonicalises to `/`. -/
def parseURL (s : String) : Option URLRec :=
  let cs := s.data
  let afterScheme : Option (List Char) :=
    if ("https://".data).isPrefixOf cs then some (cs.drop 8)
    else if ("http://".data).isPrefixOf cs then some (cs.drop 7)
    else none
  match afterScheme with
  | none => none
  | some rest =>
    let notDelim : Char → Bool := fun c => !(c == '/' || c == '?' || c == '#')
    let auth := rest.takeWhile notDelim
    let host := auth.takeWhile (fun c => c != ':')
    if host.isEmpty then none
    else
      let tail := rest.drop auth.length
      let path :=
        match tail with
        | '/' :: _ => tail.takeWhile (fun c => !(c == '?' || c == '#'))
        | _ => ['/']
      let afterPath := tail.dropWhile (fun c => !(c == '?' || c == '#'))
      let query :=
        match afterPath with
        | '?' :: q => q.takeWhile (fun c => c != '#')
        | _ => []
      some ⟨String.mk (host.map Char.toLower), String.mk path, String.mk query⟩

/-- JS `String.prototype.split` with a one-character separator: splitting
the empty string yields `[""]`, and `n` separators yield `n + 1` pieces. -/
def splitOnChar (c : Char) : List Char → List (List Char)
  | [] => [[]]
  | a :: rest =>
    let r := splitOnChar c rest
    if a == c then [] :: r
    else
      match r with
      | [] => [[a]]
      | h :: t => (a :: h) :: t

/-- Name of a `name=value` pair in a query string. -/
def pairName (p : String) : String :=
  String.mk (p.data.takeWhile (fun c => c != '='))

/-- Value of a `name=value` pair in a query string; a pair without `=`
has the empty value, as in the WHATWG `URLSearchParams` model. -/
def pairValue (p : String) : String :=
  match p.data.dropWhile (fun c => c != '=') with
  | '=' :: v => String.mk v
  | _ => ""

/-- Model of `urlObj.searchParams.get(key)`: first matching pair wins, `none` models
the `null` returned for an absent key.  Percent/`+` decoding never matters
for the numeric ids this repository reads and is not modelled. -/
def getSearchParam (query key : String) : Option String :=
  (((splitOnChar '&' query.data).map String.mk).find? (fun p => pairName p == key)).map pairValue

/-- Function `isValidBookingUrl(url)` — textually identical in
`packages/scraper/src/utils.ts` and `apps/backend/src/scraper.ts`:
`new URL(url)` inside `try`/`catch` (a parse failure returns `false`),
then `hostname === 'www.booking.com' && pathname.includes('/hotel/')`. -/
def isValidBookingUrl (url : String) : Bool :=
  match parseURL url with
  | none => false
  | some u => u.hostname == "www.booking.com" && hasSubstr "/hotel/".data u.pathname.data

/-- The maximal leading digit run matched by `hotelSegment.match(/^(\d+)/)`
in `apps/backend/src/scraper.ts`; `none` when the segment does not start
with a digit. -/
def leadingDigits (s : String) : Option String :=
  let ds := s.data.takeWhile Char.isDigit
  if ds.isEmpty then none else some (String.mk ds)

/-- The path probe of `extractHotelIdFromUrl`: split `pathname` on `/`,
find the first segment equal to `hotel`, read the segment two positions
later (JS truthiness: an out-of-range index or an empty segment falls
through to `return null`), and take its leading digit run. -/
def pathProbeHotel (u : URLRec) : Option String :=
  let segs := (splitOnChar '/' u.pathname.data).map String.mk
  match segs.findIdx? (fun seg => seg == "hotel") with
  | none => none
  | some i =>
    match segs.get? (i + 2) with
    | none => none
    | some seg => if seg == "" then none else leadingDigits seg

/-- Function `extractHotelIdFromUrl(url)` from `apps/backend/src/scraper.ts`: the
whole body is wrapped in `try`/`catch` (a URL parse failure returns
`null`); the truthy `highlighted_hotels` query parameter wins, otherwise
the path probe runs. -/
def extractHotelIdFromUrl (url : String) : Option String :=
  match parseURL url with
  | none => none
  | some u =>
    match getSearchParam u.search "highlighted_hotels" with
    | some v => if v == "" then pathProbeHotel u else some v
    | none => pathProbeHotel u

/-- JS `x || dflt` on an optional string (`undefined` and `""` are falsy). -/
def jsOrStr (o : Option String) (dflt : String) : String :=
  match o with
  | some s => if s == "" then dflt else s
  | none => dflt

/-- JS `x || false` on an optional boolean (`undefined` is falsy). -/
def jsOrBool (o : Option Bool) : Bool :=
  match o with
  | some b => b
  | none => false

/-- One `days` entry of the target site's calendar payload as read by
`interceptGraphQLData` in `packages/scraper/src/index.ts`.  The JSON is
untyped there, so every field the code defends with `||` is optional. -/
structure PkgDay where
  checkin : String
  avgPriceFormatted : Option String
  available : Option Bool
  minLengthOfStay : Option ℕ
  deriving DecidableEq, Repr

/-- One availability record produced by `packages/scraper/src/index.ts`
(`ScrapedHotelData['availabilityDays']` element).  `price` is a JS number,
hence `Option ℚ` with `none` for `NaN`. -/
structure PkgAvailabilityDay where
  checkin : String
  price : Option ℚ
  available : Bool
  minLengthOfStay : Option ℕ
  deriving DecidableEq, Repr

/-- The optional-chaining access
`responseData?.data?.availabilityCalendar?.days` on the payload
`{ data: { availabilityCalendar: { days: [...] } } }`; each level may be
absent when the response deviates from the expected shape. -/
structure PkgResponse where
  days : Option (List PkgDay)
  deriving DecidableEq, Repr

/-- The hit path of `interceptGraphQLData` (`packages/scraper/src/index.ts`
lines 145-164): for the matching response captured by the `page.on` hook,
each day entry is pushed with its raw price run through `parsePrice`
(with the `|| '0'` fallback) and its availability defaulted by
`|| false`; a response without the expected `days` path contributes
nothing. -/
def interceptGraphQLData (resp : PkgResponse) : List PkgAvailabilityDay :=
  match resp.days with
  | none => []
  | some ds =>
    ds.map (fun day =>
      { checkin := day.checkin
        price := parsePrice (jsOrStr day.avgPriceFormatted "0")
        available := jsOrBool day.available
        minLengthOfStay := day.minLengthOfStay })

/-- One `days` entry as typed by the backend scraper's `GraphQLResponse`
interface (`avgPriceFormatted: string`, `available: boolean`). -/
structure GqlDay where
  checkin : String
  avgPriceFormatted : String
  available : Bool
  minLengthOfStay : Option ℕ
  deriving DecidableEq, Repr

/-- The backend scraper's `GraphQLResponse` shape with every level of
`data.availabilityCalendar.days` optional, matching the optional-chaining
reads of the source. -/
structure GqlCalendar where
  days : Option (List GqlDay)
  deriving DecidableEq, Repr

structure GqlData where
  availabilityCalendar : Option GqlCalendar
  deriving DecidableEq, Repr

structure GqlResponse where
  data : Option GqlData
  deriving DecidableEq, Repr

/-- The optional-chaining read `graphqlResponse?.data?.availabilityCalendar?.days`. -/
def daysOf (r : GqlResponse) : Option (List GqlDay) :=
  (r.data.bind (fun d => d.availabilityCalendar)).bind (fun c => c.days)

/-- One `AvailabilityDay` of the backend scraper. -/
structure AvailabilityDay where
  checkin : String
  price : Option ℚ
  available : Bool
  minLengthOfStay : Option ℕ
  deriving DecidableEq, Repr

/-- The "Parse availability data" loop of the backend
`scrapeHotelViaGraphQL`: if the (intercepted or manually replayed)
response carries the expected `days` path, each entry is pushed with its
price run through `parsePriceString`; any shape deviation leaves the list
empty. -/
def parseAvailability (resp : Option GqlResponse) : List AvailabilityDay :=
  match resp with
  | none => []
  | some r =>
    match daysOf r with
    | none => []
    | some ds =>
      ds.map (fun day =>
        { checkin := day.checkin
          price := parsePriceString day.avgPriceFormatted
          available := day.available
          minLengthOfStay := day.minLengthOfStay })

/-- Function `extractCurrencyFromPrice(priceStr)` from `apps/backend/src/scraper.ts`:
a leading glyph among the fixed symbol set, defaulting to `EUR`. -/
def extractCurrencyFromPrice (priceStr : String) : String :=
  match priceStr.data with
  | c :: _ => if c == '€' || c == '$' || c == '£' || c == '¥' then String.mk [c] else "EUR"
  | [] => "EUR"

/-- The DOM metadata assembled by `extractHotelMetadata` in the backend
scraper: every field may be absent, amenities accumulate into a list. -/
structure Metadata where
  name : Option String
  location : Option String
  ratingOverall : Option ℚ
  ratingLocation : Option ℚ
  amenities : List String
  deriving DecidableEq, Repr

/-- The `ScrapedHotelData` returned by the backend `scrapeHotelViaGraphQL`. -/
structure ScrapedViaGraphQL where
  hotelId : Option String
  hotelName : Option String
  location : Option String
  currency : String
  ratingOverall : Option ℚ
  ratingLocation : Option ℚ
  amenities : List String
  availabilityDays : List AvailabilityDay
  deriving DecidableEq, Repr

/-- The backend `scrapeHotelViaGraphQL` pipeline (the interception-based
scraper).  The browser environment enters through three parameters:
`nav` is the outcome of navigation plus DOM metadata extraction
(`.error` models a `NavigationError`, the only fatal condition after URL
validation), `intercepted` is the calendar response captured by the route
hook if it fired, and `manualReplay` is what the in-page `fetch` replay
returned (`none` models a non-OK response or a failed request).  All
remaining control flow is the source's: invalid URL throws; the replay is
attempted only when nothing was intercepted and the URL yields a hotel id;
a missing or malformed calendar leaves `availabilityDays` empty and is
never an error; the currency falls back to `EUR` when no day was parsed. -/
def scrapeHotelViaGraphQL (hotelUrl : String) (nav : Except String Metadata)
    (intercepted manualReplay : Option GqlResponse) : Except String ScrapedViaGraphQL :=
  if !isValidBookingUrl hotelUrl then .error "Invalid Booking.com URL provided"
  else
    match nav with
    | .error msg => .error ("Failed to scrape hotel data: " ++ msg)
    | .ok md =>
      let resp : Option GqlResponse :=
        match intercepted with
        | some r => some r
        | none =>
          match extractHotelIdFromUrl hotelUrl with
          | some _ => manualReplay
          | none => none
      let availabilityDays := parseAvailability resp
      let firstRaw : Option String :=
        (resp.bind daysOf).bind (fun ds => (ds.head?).map (fun d => d.avgPriceFormatted))
      let currency :=
        if availabilityDays.length > 0 then extractCurrencyFromPrice (jsOrStr firstRaw "€0")
        else "EUR"
      .ok
        { hotelId := extractHotelIdFromUrl hotelUrl
          hotelName := md.name
          location := md.location
          currency := currency
          ratingOverall := md.ratingOverall
          ratingLocation := md.ratingLocation
          amenities := md.amenities
          availabilityDays := availabilityDays }

/-- A row of the `Hotel` table (Prisma schema / migration): every
scrape-derived column is nullable; `amenities` is stored JSON-encoded in
the database, modelled here directly as the encoded list. -/
structure Hotel where
  id : String
  bookingUrl : String
  name : Option String
  externalHotelId : Option String
  location : Option String
  currency : Option String
  ratingOverall : Option ℚ
  ratingLocation : Option ℚ
  amenities : List String
  deriving DecidableEq, Repr

/-- A row of the `DailyPrice` table.  `checkInDate` is the day-granularity
check-in date; `scrapedAt` (always set to the write time) carries no
information the claims depend on and is omitted. -/
structure DailyPrice where
  hotelId : String
  checkInDate : String
  price : ℚ
  available : Bool
  deriving DecidableEq, Repr

/-- The unique key enforced by the migration's
`DailyPrice_hotelId_checkInDate_key` index. -/
def priceKey (r : DailyPrice) : String × String :=
  (r.hotelId, r.checkInDate)

/-- The slice of the SQLite database the scrape mutations touch. -/
structure DB where
  hotels : List Hotel
  dailyPrices : List DailyPrice
  deriving DecidableEq, Repr

/-- Model of `prisma.hotel.findUnique` looking a listing up by id. -/
def findHotel (db : DB) (hotelId : String) : Option Hotel :=
  db.hotels.find? (fun h => h.id == hotelId)

/-- Model of `prisma.hotel.update`, with the `data` block given as a
row transformer.  A missing row is left alone (the resolvers only update
rows they just fetched or created). -/
def updateHotel (db : DB) (hotelId : String) (f : Hotel → Hotel) : DB :=
  { db with hotels := db.hotels.map (fun h => if h.id == hotelId then f h else h) }

/-- Model of `prisma.dailyPrice.deleteMany` for one listing. -/
def deleteManyPrices (db : DB) (hotelId : String) : DB :=
  { db with dailyPrices := db.dailyPrices.filter (fun r => !(r.hotelId == hotelId)) }

/-- Model of `prisma.dailyPrice.createMany`: a single multi-value
`INSERT`, so it is itself all-or-nothing; it throws (modelled by
`.error ()`) when the `(hotelId, checkInDate)` unique index is violated
either inside `rows` or against the stored rows. -/
def createManyPrices (db : DB) (rows : List DailyPrice) : Except Unit DB :=
  if (rows.map priceKey).Nodup ∧ ∀ r ∈ rows, priceKey r ∉ db.dailyPrices.map priceKey then
    .ok { db with dailyPrices := db.dailyPrices ++ rows }
  else .error ()

/-- All stored price rows of one listing, as read back by the
`Hotel.dailyPrices` resolver (its date-range filter taken wide open). -/
def rowsFor (db : DB) (hotelId : String) : List DailyPrice :=
  db.dailyPrices.filter (fun r => r.hotelId == hotelId)

/-- One element of `scrapedData.dailyPrices` as consumed by the resolvers. -/
structure DailyPriceInput where
  checkInDate : String
  price : ℚ
  available : Bool
  deriving DecidableEq, Repr

/-- The `ScrapedHotelData` shape the resolvers read
(`scrapedData.hotelName`, `…`, `scrapedData.dailyPrices`).  Optional
fields reproduce Prisma's update semantics: passing `undefined` for a
column leaves it unchanged.  A scraper variant that returns no
`dailyPrices` field behaves like the empty list (the resolvers guard with
`scrapedData.dailyPrices && scrapedData.dailyPrices.length > 0`). -/
structure ScrapedHotelData where
  hotelName : Option String
  hotelId : Option String
  location : Option String
  currency : Option String
  ratingOverall : Option ℚ
  ratingLocation : Option ℚ
  amenities : List String
  dailyPrices : List DailyPriceInput
  deriving DecidableEq, Repr

/-- Prisma column update: a present value overwrites, `undefined` keeps
the stored value. -/
def setCol {α : Type} (new : Option α) (old : Option α) : Option α :=
  match new with
  | some v => some v
  | none => old

/-- The `prisma.hotel.update` data block shared by both mutations'
success paths. -/
def applyScrapedFields (d : ScrapedHotelData) (h : Hotel) : Hotel :=
  { h with
    name := setCol d.hotelName h.name
    externalHotelId := setCol d.hotelId h.externalHotelId
    location := setCol d.location h.location
    currency := setCol d.currency h.currency
    ratingOverall := setCol d.ratingOverall h.ratingOverall
    ratingLocation := setCol d.ratingLocation h.ratingLocation
    amenities := d.amenities }

/-- The row list inserted for a listing's scraped prices. -/
def toRows (hotelId : String) (ps : List DailyPriceInput) : List DailyPrice :=
  ps.map (fun p =>
    { hotelId := hotelId
      checkInDate := p.checkInDate
      price := p.price
      available := p.available })

/-- The `scrapeHotel` mutation of `apps/backend/src/resolvers.ts`
(the re-scrape path; §4.6's `applyScrapeResult`).  `outcome` is what the
awaited `scrapeHotel(hotel.bookingUrl)` call produced (`.error` models a
thrown scrape error such as a `NavigationError`).  Control flow from the
source: missing hotel → failure response, nothing written; thrown scrape →
caught, failure response, nothing written; success → field update, then —
only when the scraped price list is non-empty — `deleteMany` followed by
`createMany` with no surrounding transaction, so a `createMany` throw is
caught only after the deletion is already committed.  The returned `Bool`
is the response's `success` flag. -/
def scrapeHotelMutation (db : DB) (hotelId : String)
    (outcome : Except String ScrapedHotelData) : DB × Bool :=
  match findHotel db hotelId with
  | none => (db, false)
  | some _ =>
    match outcome with
    | .error _ => (db, false)
    | .ok d =>
      let db1 := updateHotel db hotelId (applyScrapedFields d)
      if d.dailyPrices.isEmpty then (db1, true)
      else
        let db2 := deleteManyPrices db1 hotelId
        match createManyPrices db2 (toRows hotelId d.dailyPrices) with
        | .error _ => (db2, false)
        | .ok db3 => (db3, true)

/-- The background continuation attached by the `addHotel` mutation
(`.then(...).catch(...)` in `apps/backend/src/resolvers.ts` lines
120-158): on scrape success the listing's fields are overwritten and —
when the price list is non-empty — the rows are inserted (no prior
deletion: the listing was just created); on a thrown scrape error, and
equally on a `createMany` throw inside the `.then` body, the `.catch`
handler sets the listing's `name` to the visible error marker
`'Error scraping hotel'` and writes nothing else. -/
def addHotelScrapeContinuation (db : DB) (hotelId : String)
    (outcome : Except String ScrapedHotelData) : DB :=
  match outcome with
  | .error _ =>
    updateHotel db hotelId (fun h => { h with name := some "Error scraping hotel" })
  | .ok d =>
    let db1 := updateHotel db hotelId (applyScrapedFields d)
    if d.dailyPrices.isEmpty then db1
    else
      match createManyPrices db1 (toRows hotelId d.dailyPrices) with
      | .ok db2 => db2
      | .error _ =>
        updateHotel db1 hotelId (fun h => { h with name := some "Error scraping hotel" })

/-! Shape vocabulary for the spec's `[currency]<number>[K|M]` price strings,
and concrete fixtures used by the theorems below. -/

/-- The ten decimal digit characters. -/
def digitChars : List Char := ['0', '1', '2', '3', '4', '5', '6', '7', '8', '9']

/-- The currency glyphs of the spec's `[currency]` position, together with
the blank the parsers strip alongside them. -/
def currencyChars : List Char := ['€', '$', '£', '¥', ' ']

/-- The `<number>` body of a price string: integer digits, optionally
followed by a decimal point and fraction digits. -/
def priceBody (intDs : List Char) (frac : Option (List Char)) : List Char :=
  intDs ++ (match frac with
            | some f => '.' :: f
            | none => [])

/-- The characters contributed by an optional magnitude suffix. -/
def sufChars : Option Char → List Char
  | none => []
  | some c => [c]

/-- The multiplier denoted by an optional magnitude suffix. -/
def sufMult : Option Char → ℚ
  | some 'K' => 1000
  | some 'M' => 1000000
  | _ => 1

/-- Fixture: a fully populated listing, as stored after a good scrape. -/
def hotelGrand : Hotel :=
  { id := "h1"
    bookingUrl := "https://www.booking.com/hotel/fr/grand.html"
    name := some "Grand Hotel"
    externalHotelId := none
    location := some "Paris"
    currency := some "EUR"
    ratingOverall := some 8
    ratingLocation := some 9
    amenities := ["wifi"] }

/-- Fixture: a price row captured by an earlier scrape of `hotelGrand`. -/
def rowJan : DailyPrice :=
  { hotelId := "h1", checkInDate := "2024-01-01", price := 100, available := true }

/-- Fixture: the store holding `hotelGrand` with one prior price row. -/
def dbGrand : DB := { hotels := [hotelGrand], dailyPrices := [rowJan] }

/-- Fixture: scraped metadata matching `hotelGrand`, price list left empty. -/
def scrapeBase : ScrapedHotelData :=
  { hotelName := some "Grand Hotel"
    hotelId := none
    location := some "Paris"
    currency := some "EUR"
    ratingOverall := none
    ratingLocation := none
    amenities := ["wifi"]
    dailyPrices := [] }

/-- Fixture: a later scrape with two distinct February check-in dates. -/
def scrapeFeb : ScrapedHotelData :=
  { scrapeBase with
      dailyPrices :=
        [ { checkInDate := "2024-02-01", price := 200, available := true }
        , { checkInDate := "2024-02-02", price := 300, available := false } ] }

/-- Fixture: a scrape whose price list repeats one check-in date, violating
the `DailyPrice_hotelId_checkInDate_key` unique index on insert. -/
def scrapeFebDup : ScrapedHotelData :=
  { scrapeBase with
      dailyPrices :=
        [ { checkInDate := "2024-02-01", price := 200, available := true }
        , { checkInDate := "2024-02-01", price := 300, available := false } ] }

/-- Fixture: DOM metadata for the pipeline theorems. -/
def mdSample : Metadata :=
  { name := some "Grand Hotel"
    location := some "Paris"
    ratingOverall := some 8
    ratingLocation := some 9
    amenities := ["wifi"] }

/-- Fixture: the canonical calendar payload of spec §6, as the untyped
JSON read by the package interceptor. -/
def canonicalPkgResponse : PkgResponse :=
  { days :=
      some
        [ { checkin := "2024-01-01", avgPriceFormatted := some "€150"
            available := some true, minLengthOfStay := none }
        , { checkin := "2024-01-02", avgPriceFormatted := some "€1.2K"
            available := some false, minLengthOfStay := none } ] }

/-- Fixture: the same canonical payload in the backend scraper's typed
`GraphQLResponse` shape. -/
def canonicalGqlResponse : GqlResponse :=
  { data :=
      some
        { availabilityCalendar :=
            some
              { days :=
                  some
                    [ { checkin := "2024-01-01", avgPriceFormatted := "€150"
                        available := true, minLengthOfStay := none }
                    , { checkin := "2024-01-02", avgPriceFormatted := "€1.2K"
                        available := false, minLengthOfStay := none } ] } } }

end HotelMonitoring
namespace HotelMonitoring

theorem hasChar_append (c : Char) (l r : List Char) :
    hasChar c (l ++ r) = (hasChar c l || hasChar c r) := by
  induction l with
  | nil => simp [hasChar]
  | cons a t ih => simp [hasChar, ih, Bool.or_assoc]

theorem hasChar_eq_false_of {c : Char} {l : List Char}
    (h : ∀ a ∈ l, (a == c) = false) : hasChar c l = false := by
  induction l with
  | nil => rfl
  | cons a t ih =>
    simp only [hasChar, h a (by simp), Bool.false_or]
    exact ih (fun b hb => h b (by simp [hb]))

theorem removeFirst_append_of_none {c : Char} {l : List Char} (r : List Char)
    (h : hasChar c l = false) : removeFirst c (l ++ r) = l ++ removeFirst c r := by
  induction l with
  | nil => simp
  | cons a t ih =>
    have h' : (a == c) = false ∧ hasChar c t = false := by
      simpa [hasChar] using h
    simp only [List.cons_append, removeFirst, h'.1, Bool.false_eq_true, if_false]
    exact congrArg (List.cons a) (ih h'.2)

theorem cleanChars_append (l r : List Char) :
    cleanChars (l ++ r) = cleanChars l ++ cleanChars r := by
  simp [cleanChars]

theorem cleanChars_eq_nil {l : List Char} (h : ∀ c ∈ l, isStrippedChar c = true) :
    cleanChars l = [] := by
  simp only [cleanChars, List.filter_eq_nil_iff]
  intro a ha
  simp [h a ha]

theorem cleanChars_eq_self {l : List Char} (h : ∀ c ∈ l, isStrippedChar c = false) :
    cleanChars l = l := by
  rw [cleanChars, List.filter_eq_self]
  intro a ha
  simp [h a ha]

/-- Facts about digit characters, checked by computation. -/
theorem digit_props : ∀ c ∈ digitChars, Char.isDigit c = true ∧ isStrippedChar c = false
    ∧ (c == 'K') = false ∧ (c == 'M') = false ∧ (c == '-') = false
    ∧ (c == '+') = false ∧ (c == '.') = false := by decide

/-- Facts about currency-position characters, checked by computation. -/
theorem currency_props : ∀ c ∈ currencyChars, isStrippedChar c = true := by decide

/-- Evaluation of `parseFloat` on `digits [. digits] junk`: the sign is absent, the two
digit runs are maximal, and a non-digit, non-dot first junk character stops
the parse, so the value is the mantissa denoted by the two runs. -/
theorem parseFloatChars_split (intDs frac rest : List Char)
    (hint : ∀ c ∈ intDs, c ∈ digitChars) (hne : intDs ≠ [])
    (hfrac : ∀ c ∈ frac, c ∈ digitChars)
    (hrest : rest = [] ∨ ∃ j t, rest = j :: t ∧ Char.isDigit j = false) :
    parseFloatChars (intDs ++ '.' :: (frac ++ rest)) = some (mantissaVal intDs frac) := by
  obtain ⟨d, ds, rfl⟩ : ∃ d ds, intDs = d :: ds := by
    cases intDs with
    | nil => exact absurd rfl hne
    | cons d ds => exact ⟨d, ds, rfl⟩
  have hd := digit_props d (hint d (by simp))
  have hdigits : ∀ c ∈ d :: ds, Char.isDigit c = true :=
    fun c hc => (digit_props c (hint c hc)).1
  have hfdigits : ∀ c ∈ frac, Char.isDigit c = true :=
    fun c hc => (digit_props c (hfrac c hc)).1
  have hsw1 : startsWithChar '-' ((d :: ds) ++ '.' :: (frac ++ rest)) = false := by
    simp [startsWithChar, hd.2.2.2.2.1]
  have hsw2 : startsWithChar '+' ((d :: ds) ++ '.' :: (frac ++ rest)) = false := by
    simp [startsWithChar, hd.2.2.2.2.2.1]
  have htake : ((d :: ds) ++ '.' :: (frac ++ rest)).takeWhile Char.isDigit = d :: ds := by
    rw [List.takeWhile_append_of_pos hdigits]
    simp [List.takeWhile_cons]
  have hdrop : ((d :: ds) ++ '.' :: (frac ++ rest)).dropWhile Char.isDigit
      = '.' :: (frac ++ rest) := by
    rw [List.dropWhile_append_of_pos hdigits]
    simp [List.dropWhile_cons]
  have hfractake : (frac ++ rest).takeWhile Char.isDigit = frac := by
    rw [List.takeWhile_append_of_pos hfdigits]
    rcases hrest with rfl | ⟨j, t, rfl, hj⟩
    · simp
    · simp [List.takeWhile_cons, hj]
  simp only [parseFloatChars, hsw1, hsw2, Bool.or_false, if_false, Bool.false_eq_true,
    htake, hdrop, hfractake]
  simp [startsWithChar, List.isEmpty_cons]
  rw [hfractake]

/-- Evaluation of `parseFloat` on `digits junk` where the junk neither continues the
digit run nor opens a fraction: the value is the integer digit run. -/
theorem parseFloatChars_nofrac (intDs rest : List Char)
    (hint : ∀ c ∈ intDs, c ∈ digitChars) (hne : intDs ≠ [])
    (hrest : rest = [] ∨ ∃ j t, rest = j :: t ∧ Char.isDigit j = false ∧ (j == '.') = false) :
    parseFloatChars (intDs ++ rest) = some (mantissaVal intDs []) := by
  obtain ⟨d, ds, rfl⟩ : ∃ d ds, intDs = d :: ds := by
    cases intDs with
    | nil => exact absurd rfl hne
    | cons d ds => exact ⟨d, ds, rfl⟩
  have hd := digit_props d (hint d (by simp))
  have hdigits : ∀ c ∈ d :: ds, Char.isDigit c = true :=
    fun c hc => (digit_props c (hint c hc)).1
  have hsw1 : startsWithChar '-' ((d :: ds) ++ rest) = false := by
    simp [startsWithChar, hd.2.2.2.2.1]
  have hsw2 : startsWithChar '+' ((d :: ds) ++ rest) = false := by
    simp [startsWithChar, hd.2.2.2.2.2.1]
  have htake : ((d :: ds) ++ rest).takeWhile Char.isDigit = d :: ds := by
    rw [List.takeWhile_append_of_pos hdigits]
    rcases hrest with rfl | ⟨j, t, rfl, hj, _⟩
    · simp
    · simp [List.takeWhile_cons, hj]
  have hdrop : ((d :: ds) ++ rest).dropWhile Char.isDigit = rest := by
    rw [List.dropWhile_append_of_pos hdigits]
    rcases hrest with rfl | ⟨j, t, rfl, hj, _⟩
    · simp
    · simp [List.dropWhile_cons, hj]
  have hdot : startsWithChar '.' rest = false := by
    rcases hrest with rfl | ⟨j, t, rfl, _, hjd⟩
    · rfl
    · simp [startsWithChar, hjd]
  simp only [parseFloatChars, hsw1, hsw2, Bool.or_false, if_false, Bool.false_eq_true,
    htake, hdrop, hdot]
  simp [List.isEmpty_cons]

/-- Every character of a `priceBody` is a digit or the decimal point. -/
theorem mem_priceBody {intDs : List Char} {frac : Option (List Char)} {c : Char}
    (hint : ∀ c ∈ intDs, c ∈ digitChars)
    (hfrac : ∀ f, frac = some f → ∀ c ∈ f, c ∈ digitChars)
    (hc : c ∈ priceBody intDs frac) : c ∈ digitChars ∨ c = '.' := by
  rcases List.mem_append.mp hc with h | h
  · exact Or.inl (hint c h)
  · cases frac with
    | none => simp at h
    | some f =>
      rcases List.mem_cons.mp h with rfl | h'
      · exact Or.inr rfl
      · exact Or.inl (hfrac f rfl c h')

/-- The anatomy of the price parsers on a cleaned body with an optional
magnitude suffix behind an arbitrary currency/whitespace prefix. -/
theorem parsePriceChars_core (cur body : List Char) (suf : Option Char) (val : ℚ)
    (hcur : ∀ c ∈ cur, c ∈ currencyChars)
    (hbody : ∀ c ∈ body, isStrippedChar c = false)
    (hK : hasChar 'K' body = false) (hM : hasChar 'M' body = false)
    (hne : body ≠ [])
    (hval : parseFloatChars body = some val)
    (hsuf : suf = none ∨ suf = some 'K' ∨ suf = some 'M') :
    parsePriceChars (cur ++ body ++ sufChars suf) = some (val * sufMult suf) := by
  obtain ⟨b, bs, rfl⟩ : ∃ b bs, body = b :: bs := by
    cases body with
    | nil => exact absurd rfl hne
    | cons b bs => exact ⟨b, bs, rfl⟩
  have hempty : (cur ++ (b :: bs) ++ sufChars suf).isEmpty = false := by
    cases cur <;> simp [List.isEmpty_cons]
  have hcleansuf : cleanChars (sufChars suf) = sufChars suf := by
    rcases hsuf with rfl | rfl | rfl <;> simp [sufChars, cleanChars] <;> decide
  have hclean : cleanChars (cur ++ (b :: bs) ++ sufChars suf)
      = (b :: bs) ++ sufChars suf := by
    rw [cleanChars_append, cleanChars_append, cleanChars_eq_nil (fun c hc => currency_props c (hcur c hc)),
      cleanChars_eq_self hbody, hcleansuf]
    simp
  rcases hsuf with rfl | rfl | rfl
  · have hKall : hasChar 'K' ((b :: bs) ++ sufChars none) = false := by
      rw [hasChar_append, hK]; rfl
    have hMall : hasChar 'M' ((b :: bs) ++ sufChars none) = false := by
      rw [hasChar_append, hM]; rfl
    simp only [parsePriceChars, hempty, Bool.false_eq_true, if_false, hclean, hKall, hMall]
    simp [sufChars, sufMult, hval]
  · have hKall : hasChar 'K' ((b :: bs) ++ sufChars (some 'K')) = true := by
      rw [hasChar_append, hK]; rfl
    have hrem : removeFirst 'K' ((b :: bs) ++ sufChars (some 'K')) = b :: bs := by
      rw [removeFirst_append_of_none _ hK]
      simp [sufChars, removeFirst]
    simp only [parsePriceChars, hempty, Bool.false_eq_true, if_false, hclean, hKall, hrem,
      if_true, hval]
    simp [sufMult]
  · have hKall : hasChar 'K' ((b :: bs) ++ sufChars (some 'M')) = false := by
      rw [hasChar_append, hK]; rfl
    have hMall : hasChar 'M' ((b :: bs) ++ sufChars (some 'M')) = true := by
      rw [hasChar_append, hM]; rfl
    have hrem : removeFirst 'M' ((b :: bs) ++ sufChars (some 'M')) = b :: bs := by
      rw [removeFirst_append_of_none _ hM]
      simp [sufChars, removeFirst]
    simp only [parsePriceChars, hempty, Bool.false_eq_true, if_false, hclean, hKall, hMall,
      hrem, if_true, hval]
    simp [sufMult]

/-- Behaviour of `parsePrice` on the spec's `[currency]<number>[K|M]` shape: the
mantissa times the suffix multiplier. -/
theorem parsePriceChars_shape (cur intDs : List Char) (frac : Option (List Char))
    (suf : Option Char)
    (hcur : ∀ c ∈ cur, c ∈ currencyChars)
    (hint : ∀ c ∈ intDs, c ∈ digitChars)
    (hne : intDs ≠ [])
    (hfrac : ∀ f, frac = some f → ∀ c ∈ f, c ∈ digitChars)
    (hsuf : suf = none ∨ suf = some 'K' ∨ suf = some 'M') :
    parsePriceChars (cur ++ priceBody intDs frac ++ sufChars suf)
      = some (mantissaVal intDs (frac.getD []) * sufMult suf) := by
  have hBK : hasChar 'K' (priceBody intDs frac) = false := by
    apply hasChar_eq_false_of
    intro a ha
    rcases mem_priceBody hint hfrac ha with h | rfl
    · exact (digit_props a h).2.2.1
    · decide
  have hBM : hasChar 'M' (priceBody intDs frac) = false := by
    apply hasChar_eq_false_of
    intro a ha
    rcases mem_priceBody hint hfrac ha with h | rfl
    · exact (digit_props a h).2.2.2.1
    · decide
  have hBclean : ∀ c ∈ priceBody intDs frac, isStrippedChar c = false := by
    intro c hc
    rcases mem_priceBody hint hfrac hc with h | rfl
    · exact (digit_props c h).2.1
    · decide
  have hBne : priceBody intDs frac ≠ [] := by
    cases intDs with
    | nil => exact absurd rfl hne
    | cons d ds => simp [priceBody]
  have hBval : parseFloatChars (priceBody intDs frac)
      = some (mantissaVal intDs (frac.getD [])) := by
    cases frac with
    | none => exact parseFloatChars_nofrac intDs [] hint hne (Or.inl rfl) |>.trans (by simp)
    | some f =>
      have h := parseFloatChars_split intDs f [] hint hne (hfrac f rfl) (Or.inl rfl)
      simpa [priceBody] using h
  exact parsePriceChars_core cur (priceBody intDs frac) suf _ hcur hBclean hBK hBM hBne hBval hsuf

theorem parsePrice_150 : parsePrice "€150" = some 150 := by
  have h := parsePriceChars_shape ['€'] ['1', '5', '0'] none none (by decide) (by decide)
    (by decide) (by intro f hf; cases hf) (Or.inl rfl)
  have e1 : ['€'] ++ priceBody ['1', '5', '0'] none ++ sufChars none = "€150".data := by decide
  have e2 : mantissaVal ['1', '5', '0'] ((none : Option (List Char)).getD []) * sufMult none
      = (150 : ℚ) := by
    simp [mantissaVal, sufMult, show digitsToNat ['1', '5', '0'] = 150 from by decide,
      show digitsToNat [] = 0 from rfl]
  rw [e1, e2] at h
  exact h

theorem parsePrice_1p2K : parsePrice "€1.2K" = some 1200 := by
  have h := parsePriceChars_shape ['€'] ['1'] (some ['2']) (some 'K') (by decide) (by decide)
    (by decide) (by intro f hf c hc; cases hf; revert c hc; decide) (Or.inr (Or.inl rfl))
  have e1 : ['€'] ++ priceBody ['1'] (some ['2']) ++ sufChars (some 'K') = "€1.2K".data := by decide
  have e2 : mantissaVal ['1'] ((some ['2']).getD []) * sufMult (some 'K') = (1200 : ℚ) := by
    simp [mantissaVal, sufMult, digitsToNat]
    norm_num
  rw [e1, e2] at h
  exact h

theorem parsePrice_1p6K : parsePrice "€1.6K" = some 1600 := by
  have h := parsePriceChars_shape ['€'] ['1'] (some ['6']) (some 'K') (by decide) (by decide)
    (by decide) (by intro f hf c hc; cases hf; revert c hc; decide) (Or.inr (Or.inl rfl))
  have e1 : ['€'] ++ priceBody ['1'] (some ['6']) ++ sufChars (some 'K') = "€1.6K".data := by decide
  have e2 : mantissaVal ['1'] ((some ['6']).getD []) * sufMult (some 'K') = (1600 : ℚ) := by
    simp [mantissaVal, sufMult, digitsToNat]
    norm_num
  rw [e1, e2] at h
  exact h

theorem mantissaVal_nil (l : List Char) : mantissaVal l [] = (digitsToNat l : ℚ) := by
  simp [mantissaVal, show digitsToNat [] = 0 from rfl]

theorem parsePrice_comma : parsePrice "€1,6K" = some 1000 := by
  have hval : parseFloatChars (['1'] ++ [',', '6']) = some (mantissaVal ['1'] []) :=
    parseFloatChars_nofrac ['1'] [',', '6'] (by decide) (by decide)
      (Or.inr ⟨',', ['6'], rfl, by decide, by decide⟩)
  have h := parsePriceChars_core ['€'] ['1', ',', '6'] (some 'K') (mantissaVal ['1'] [])
    (by decide) (by decide) (by decide) (by decide) (by decide) (by exact hval)
    (Or.inr (Or.inl rfl))
  have e1 : ['€'] ++ ['1', ',', '6'] ++ sufChars (some 'K') = "€1,6K".data := by decide
  have e2 : mantissaVal ['1'] [] * sufMult (some 'K') = (1000 : ℚ) := by
    rw [mantissaVal_nil]
    simp [sufMult, show digitsToNat ['1'] = 1 from by decide]
  rw [e1, e2] at h
  exact h

theorem parsePrice_low_k : parsePrice "€1.6k" = some (8 / 5) := by
  have hval : parseFloatChars (['1'] ++ '.' :: (['6'] ++ ['k']))
      = some (mantissaVal ['1'] ['6']) :=
    parseFloatChars_split ['1'] ['6'] ['k'] (by decide) (by decide) (by decide)
      (Or.inr ⟨'k', [], rfl, by decide⟩)
  have h := parsePriceChars_core ['€'] ['1', '.', '6', 'k'] none (mantissaVal ['1'] ['6'])
    (by decide) (by decide) (by decide) (by decide) (by decide) (by exact hval)
    (Or.inl rfl)
  have e1 : ['€'] ++ ['1', '.', '6', 'k'] ++ sufChars none = "€1.6k".data := by decide
  have e2 : mantissaVal ['1'] ['6'] * sufMult none = (8 / 5 : ℚ) := by
    simp [mantissaVal, sufMult, digitsToNat]
    norm_num
  rw [e1, e2] at h
  exact h

theorem toRows_map_key (hid : String) (l : List DailyPriceInput) :
    (toRows hid l).map priceKey = l.map (fun p => (hid, p.checkInDate)) := by
  simp [toRows, priceKey, List.map_map, Function.comp]

theorem toRows_map_date (hid : String) (l : List DailyPriceInput) :
    (toRows hid l).map (fun r => r.checkInDate) = l.map (fun p => p.checkInDate) := by
  simp [toRows, List.map_map, Function.comp]

theorem toRows_hotelId {hid : String} {l : List DailyPriceInput} {r : DailyPrice}
    (h : r ∈ toRows hid l) : r.hotelId = hid := by
  rcases List.mem_map.mp h with ⟨p, _, rfl⟩
  rfl

theorem nodup_pairs_dates {l : List DailyPriceInput} {hid : String}
    (h : (l.map (fun p => (hid, p.checkInDate))).Nodup) :
    (l.map (fun p => p.checkInDate)).Nodup := by
  induction l with
  | nil => simp
  | cons a t ih =>
    simp only [List.map_cons, List.nodup_cons] at h ⊢
    refine ⟨?_, ih h.2⟩
    intro hmem
    rcases List.mem_map.mp hmem with ⟨b, hb, hba⟩
    exact h.1 (List.mem_map.mpr ⟨b, hb, by rw [hba]⟩)

theorem parsePrice_1p6M : parsePrice "€1.6M" = some 1600000 := by
  have h := parsePriceChars_shape ['€'] ['1'] (some ['6']) (some 'M') (by decide) (by decide)
    (by decide) (by intro f hf c hc; cases hf; revert c hc; decide) (Or.inr (Or.inr rfl))
  have e1 : ['€'] ++ priceBody ['1'] (some ['6']) ++ sufChars (some 'M') = "€1.6M".data := by decide
  have e2 : mantissaVal ['1'] ((some ['6']).getD []) * sufMult (some 'M') = (1600000 : ℚ) := by
    simp [mantissaVal, sufMult, digitsToNat]
    norm_num
  rw [e1, e2] at h
  exact h

/-- The two price parsers have identical source text; their embeddings are
definitionally equal. -/
theorem parsePriceString_eq (s : String) : parsePriceString s = parsePrice s := rfl

/-- C1 (amended): for every valid price string `[currency]<number>[K|M]` the
parser returns the mantissa times 1, 1000 or 1000000; the empty string and
unparseable input whose cleaned form carries no `K`/`M` letter give 0; but
unparseable input whose cleaned form does contain a `K`, or an `M` with no
`K` before the branch (the claim's "any unparseable input returns 0" fails
there), gives `NaN` — never a thrown error, since every branch is total. -/
theorem parsePrice_spec :
    (∀ cur intDs frac suf, (∀ c ∈ cur, c ∈ currencyChars) →
        (∀ c ∈ intDs, c ∈ digitChars) → intDs ≠ [] →
        (∀ f, frac = some f → ∀ c ∈ f, c ∈ digitChars) →
        (suf = none ∨ suf = some 'K' ∨ suf = some 'M') →
        parsePriceChars (cur ++ priceBody intDs frac ++ sufChars suf)
          = some (mantissaVal intDs (frac.getD []) * sufMult suf))
    ∧ parsePrice "" = some 0
    ∧ (∀ cs, hasChar 'K' (cleanChars cs) = false → hasChar 'M' (cleanChars cs) = false →
        parseFloatChars (cleanChars cs) = none → parsePriceChars cs = some 0)
    ∧ (∀ cs, hasChar 'K' (cleanChars cs) = true →
        parseFloatChars (removeFirst 'K' (cleanChars cs)) = none →
        parsePriceChars cs = none)
    ∧ (∀ cs, hasChar 'K' (cleanChars cs) = false → hasChar 'M' (cleanChars cs) = true →
        parseFloatChars (removeFirst 'M' (cleanChars cs)) = none →
        parsePriceChars cs = none) := by
  refine ⟨fun cur intDs frac suf h1 h2 h3 h4 h5 =>
    parsePriceChars_shape cur intDs frac suf h1 h2 h3 h4 h5, rfl, ?_, ?_, ?_⟩
  · intro cs hK hM hF
    cases cs with
    | nil => rfl
    | cons a t =>
      simp only [parsePriceChars, List.isEmpty_cons, Bool.false_eq_true, if_false, hK, hM, hF]
      rfl
  · intro cs hK hF
    cases cs with
    | nil => cases hK
    | cons a t =>
      simp only [parsePriceChars, List.isEmpty_cons, Bool.false_eq_true, if_false, hK, if_true, hF]
      rfl
  · intro cs hK hM hF
    cases cs with
    | nil => cases hM
    | cons a t =>
      simp only [parsePriceChars, List.isEmpty_cons, Bool.false_eq_true, if_false, hK, hM,
        if_true, hF]
      rfl

/-- C1 counterexample: `"€K"` is unparseable, yet the `K` branch multiplies
`parseFloat("") = NaN` by 1000 with no `|| 0` guard, so the parser returns
`NaN`, not the 0 the claim promises for every unparseable input. -/
theorem parsePrice_nan_cex : parsePrice "€K" = none ∧ (none : Option ℚ) ≠ some 0 := by
  constructor
  · decide
  · decide

/-- C1 witness: the amended theorem instantiated at the spec's examples,
including one unparseable input for each of the `K` and `M` branches. -/
theorem parsePrice_spec_witness :
    parsePrice "€1.6K" = some 1600 ∧ parsePrice "€150" = some 150
    ∧ parsePrice "" = some 0 ∧ parsePrice "Kangaroo" = none
    ∧ parsePrice "€M" = none := by
  refine ⟨?_, ?_, parsePrice_spec.2.1, ?_, ?_⟩
  · have h := parsePrice_spec.1 ['€'] ['1'] (some ['6']) (some 'K') (by decide) (by decide)
      (by decide) (by intro f hf c hc; cases hf; revert c hc; decide) (Or.inr (Or.inl rfl))
    have e1 : ['€'] ++ priceBody ['1'] (some ['6']) ++ sufChars (some 'K') = "€1.6K".data := by
      decide
    have e2 : mantissaVal ['1'] ((some ['6']).getD []) * sufMult (some 'K') = (1600 : ℚ) := by
      simp [mantissaVal, sufMult, digitsToNat]
      norm_num
    rw [e1, e2] at h
    exact h
  · have h := parsePrice_spec.1 ['€'] ['1', '5', '0'] none none (by decide) (by decide)
      (by decide) (by intro f hf; cases hf) (Or.inl rfl)
    have e1 : ['€'] ++ priceBody ['1', '5', '0'] none ++ sufChars none = "€150".data := by decide
    have e2 : mantissaVal ['1', '5', '0'] ((none : Option (List Char)).getD []) * sufMult none
        = (150 : ℚ) := by
      simp [mantissaVal, sufMult, show digitsToNat ['1', '5', '0'] = 150 from by decide,
        show digitsToNat [] = 0 from rfl]
    rw [e1, e2] at h
    exact h
  · exact parsePrice_spec.2.2.2.1 "Kangaroo".data (by decide) (by decide)
  · exact parsePrice_spec.2.2.2.2 "€M".data (by decide) (by decide) (by decide)

/-- C9 (amended): a decimal comma is not an accepted mantissa separator —
it terminates the parsed mantissa, so the comma form equals the
integer-part value times the suffix multiplier (`parse("€1,6K") = 1000`,
not the claimed 1600); the magnitude suffix is matched case-sensitively:
uppercase `M` multiplies, lowercase `k` is ignored by both suffix branches
and merely stops `parseFloat`. -/
theorem parsePrice_separator_spec :
    (∀ cur intDs extra suf, (∀ c ∈ cur, c ∈ currencyChars) →
        (∀ c ∈ intDs, c ∈ digitChars) → intDs ≠ [] →
        (∀ c ∈ extra, c ∈ digitChars) →
        (suf = none ∨ suf = some 'K' ∨ suf = some 'M') →
        parsePriceChars (cur ++ (intDs ++ ',' :: extra) ++ sufChars suf)
          = some ((digitsToNat intDs : ℚ) * sufMult suf))
    ∧ parsePrice "€1.6M" = some 1600000
    ∧ parsePrice "€1.6k" = some (8 / 5) := by
  refine ⟨?_, parsePrice_1p6M, parsePrice_low_k⟩
  intro cur intDs extra suf hcur hint hne hextra hsuf
  have hval := parseFloatChars_nofrac intDs (',' :: extra) hint hne
    (Or.inr ⟨',', extra, rfl, by decide, by decide⟩)
  rw [mantissaVal_nil] at hval
  have hmem : ∀ c ∈ intDs ++ ',' :: extra, c ∈ digitChars ∨ c = ',' := by
    intro c hc
    rcases List.mem_append.mp hc with h | h
    · exact Or.inl (hint c h)
    · rcases List.mem_cons.mp h with rfl | h'
      · exact Or.inr rfl
      · exact Or.inl (hextra c h')
  apply parsePriceChars_core cur (intDs ++ ',' :: extra) suf _ hcur
  · intro c hc
    rcases hmem c hc with h | rfl
    · exact (digit_props c h).2.1
    · decide
  · apply hasChar_eq_false_of
    intro a ha
    rcases hmem a ha with h | rfl
    · exact (digit_props a h).2.2.1
    · decide
  · apply hasChar_eq_false_of
    intro a ha
    rcases hmem a ha with h | rfl
    · exact (digit_props a h).2.2.2.1
    · decide
  · cases intDs with
    | nil => exact absurd rfl hne
    | cons d ds => simp
  · exact hval
  · exact hsuf

/-- C9 counterexample: the comma form and the point form disagree. -/
theorem parsePrice_comma_cex :
    parsePrice "€1,6K" = some 1000 ∧ parsePrice "€1.6K" = some 1600
    ∧ (some (1000 : ℚ) : Option ℚ) ≠ some 1600 :=
  ⟨parsePrice_comma, parsePrice_1p6K, by norm_num⟩

/-- C9 witness: the amended theorem instantiated at the comma example. -/
theorem parsePrice_separator_spec_witness :
    parsePrice "€1,6K" = some 1000 ∧ parsePrice "€1.6k" = some (8 / 5) := by
  refine ⟨?_, parsePrice_separator_spec.2.2⟩
  have h := parsePrice_separator_spec.1 ['€'] ['1'] ['6'] (some 'K') (by decide) (by decide)
    (by decide) (by decide) (Or.inr (Or.inl rfl))
  have e1 : ['€'] ++ (['1'] ++ ',' :: ['6']) ++ sufChars (some 'K') = "€1,6K".data := by decide
  have e2 : ((digitsToNat ['1'] : ℚ)) * sufMult (some 'K') = (1000 : ℚ) := by
    simp [sufMult, show digitsToNat ['1'] = 1 from by decide]
  rw [e1, e2] at h
  exact h

/-- C10: the scraper package's `parsePrice` and the backend's
`parsePriceString` are extensionally equal — their sources are the same
function text. -/
theorem price_parsers_extensionally_equal :
    ∀ s : String, parsePrice s = parsePriceString s := fun _ => rfl

/-- C5: on the interception hit path, the canonical §6 payload yields
exactly the two records of the claim, each raw price run through the price
parser — in both the package interceptor and the backend parse loop. -/
theorem interceptor_hit_path_canonical :
    interceptGraphQLData canonicalPkgResponse
      = [ { checkin := "2024-01-01", price := some 150, available := true
            minLengthOfStay := none }
        , { checkin := "2024-01-02", price := some 1200, available := false
            minLengthOfStay := none } ]
    ∧ parseAvailability (some canonicalGqlResponse)
      = [ { checkin := "2024-01-01", price := some 150, available := true
            minLengthOfStay := none }
        , { checkin := "2024-01-02", price := some 1200, available := false
            minLengthOfStay := none } ] := by
  constructor
  · rw [show interceptGraphQLData canonicalPkgResponse
        = [ { checkin := "2024-01-01", price := parsePrice "€150", available := true
              minLengthOfStay := none }
          , { checkin := "2024-01-02", price := parsePrice "€1.2K", available := false
              minLengthOfStay := none } ] from rfl,
      parsePrice_150, parsePrice_1p2K]
  · rw [show parseAvailability (some canonicalGqlResponse)
        = [ { checkin := "2024-01-01", price := parsePriceString "€150", available := true
              minLengthOfStay := none }
          , { checkin := "2024-01-02", price := parsePriceString "€1.2K", available := false
              minLengthOfStay := none } ] from rfl,
      parsePriceString_eq, parsePriceString_eq, parsePrice_150, parsePrice_1p2K]

/-- C7: `isValidBookingUrl` is true exactly when the URL parses, its host
is the canonical `www.booking.com`, and its path contains the `/hotel/`
marker; in particular it is false — not an error — for malformed URLs and
for any other host. -/
theorem validate_url_iff (url : String) :
    isValidBookingUrl url = true
      ↔ ∃ u, parseURL url = some u ∧ u.hostname = "www.booking.com"
          ∧ hasSubstr "/hotel/".data u.pathname.data = true := by
  unfold isValidBookingUrl
  cases h : parseURL url with
  | none => simp
  | some u => simp [Bool.and_eq_true]

/-- C7 witness: the iff applied at a well-formed target URL and, in the
reverse direction, at a URL whose host differs while the path carries the
marker. -/
theorem validate_url_iff_witness :
    isValidBookingUrl "https://www.booking.com/hotel/fr/brach-paris.html" = true
    ∧ isValidBookingUrl "https://evil.com/hotel/fr/brach-paris.html" = false := by
  constructor
  · exact (validate_url_iff _).mpr
      ⟨⟨"www.booking.com", "/hotel/fr/brach-paris.html", ""⟩, by decide, rfl, by decide⟩
  · cases hb : isValidBookingUrl "https://evil.com/hotel/fr/brach-paris.html" with
    | false => rfl
    | true =>
      exfalso
      obtain ⟨u, hu, hh, _⟩ := (validate_url_iff _).mp hb
      rw [show parseURL "https://evil.com/hotel/fr/brach-paris.html"
          = some ⟨"evil.com", "/hotel/fr/brach-paris.html", ""⟩ from by decide] at hu
      cases hu
      exact absurd hh (by decide)

/-- C8 (amended): the identifier extractor first reads the
`highlighted_hotels` query parameter (any truthy value wins), then probes
the path segment two positions after a `hotel` segment for a leading digit
run — the `.html` extension is not required by the code; a malformed URL
gives `none`, and a path-probe result is always a nonempty digit string. -/
theorem extract_identifier_probes (url : String) :
    (parseURL url = none → extractHotelIdFromUrl url = none)
    ∧ (∀ u v, parseURL url = some u →
        getSearchParam u.search "highlighted_hotels" = some v → v ≠ "" →
        extractHotelIdFromUrl url = some v)
    ∧ (∀ u, parseURL url = some u →
        (∀ v, getSearchParam u.search "highlighted_hotels" = some v → v = "") →
        extractHotelIdFromUrl url = pathProbeHotel u)
    ∧ (∀ s r, leadingDigits s = some r → r ≠ "" ∧ ∀ c ∈ r.data, Char.isDigit c = true) := by
  refine ⟨?_, ?_, ?_, ?_⟩
  · intro h
    simp [extractHotelIdFromUrl, h]
  · intro u v hu hv hne
    have hb : (v == "") = false := by simpa using hne
    simp [extractHotelIdFromUrl, hu, hv, hb]
  · intro u hu hv
    cases hg : getSearchParam u.search "highlighted_hotels" with
    | none => simp [extractHotelIdFromUrl, hu, hg]
    | some v =>
      have hveq := hv v hg
      subst hveq
      simp [extractHotelIdFromUrl, hu, hg]
  · intro s r h
    simp only [leadingDigits] at h
    by_cases hds : (s.data.takeWhile Char.isDigit).isEmpty = true
    · rw [if_pos hds] at h
      cases h
    · rw [if_neg hds] at h
      injection h with h'
      subst h'
      constructor
      · intro hcon
        have hnil : s.data.takeWhile Char.isDigit = [] := congrArg String.data hcon
        rw [hnil] at hds
        exact hds rfl
      · intro c hc
        exact List.mem_takeWhile_imp hc

/-- C8 counterexample: the second probe does not require the `.html`
suffix the claim describes — a bare `/hotel/<locale>/<digits>` path still
yields an identifier, where the claim's probe (b) would not match and the
claim demands the empty result. -/
theorem extract_identifier_html_not_required_cex :
    extractHotelIdFromUrl "https://www.booking.com/hotel/fr/123" = some "123" := by decide

/-- C8 witness: the amended theorem applied at a URL carrying the query
parameter, showing it wins over the path probe. -/
theorem extract_identifier_probes_witness :
    extractHotelIdFromUrl
      "https://www.booking.com/hotel/fr/123abc.html?highlighted_hotels=42" = some "42" :=
  (extract_identifier_probes _).2.1
    ⟨"www.booking.com", "/hotel/fr/123abc.html", "highlighted_hotels=42"⟩ "42"
    (by decide) (by decide) (by decide)

/-- C6: when the interception hook never fires and the manual replay fails
(`none`), or when the captured response deviates from the expected JSON
shape (`daysOf = none`), the pipeline still returns a successful result
carrying the extracted metadata and an empty price list — absence of price
data is never a fatal error. -/
theorem no_data_is_success (url : String) (md : Metadata)
    (hvalid : isValidBookingUrl url = true) :
    scrapeHotelViaGraphQL url (.ok md) none none
      = .ok { hotelId := extractHotelIdFromUrl url, hotelName := md.name
              location := md.location, currency := "EUR"
              ratingOverall := md.ratingOverall, ratingLocation := md.ratingLocation
              amenities := md.amenities, availabilityDays := [] }
    ∧ (∀ resp replay, daysOf resp = none →
        scrapeHotelViaGraphQL url (.ok md) (some resp) replay
          = .ok { hotelId := extractHotelIdFromUrl url, hotelName := md.name
                  location := md.location, currency := "EUR"
                  ratingOverall := md.ratingOverall, ratingLocation := md.ratingLocation
                  amenities := md.amenities, availabilityDays := [] }) := by
  constructor
  · simp only [scrapeHotelViaGraphQL, hvalid, Bool.not_true, Bool.false_eq_true, if_false]
    cases h : extractHotelIdFromUrl url <;> simp [parseAvailability, h]
  · intro resp replay hdays
    simp only [scrapeHotelViaGraphQL, hvalid, Bool.not_true, Bool.false_eq_true, if_false]
    simp [parseAvailability, hdays]

/-- C6 witness: the theorem applied at a concrete target URL and metadata. -/
theorem no_data_is_success_witness :
    scrapeHotelViaGraphQL "https://www.booking.com/hotel/fr/brach-paris.html"
        (.ok mdSample) none none
      = .ok { hotelId := none, hotelName := some "Grand Hotel", location := some "Paris"
              currency := "EUR", ratingOverall := some 8, ratingLocation := some 9
              amenities := ["wifi"], availabilityDays := [] } := by
  have h := (no_data_is_success "https://www.booking.com/hotel/fr/brach-paris.html" mdSample
    (by decide)).1
  rw [show extractHotelIdFromUrl "https://www.booking.com/hotel/fr/brach-paris.html" = none
    from by decide] at h
  exact h

/-- C2 (amended): a failed rescrape writes nothing at all — prior name,
ratings and price rows survive untouched, but no persisted error marker
appears either; the `addHotel` background failure handler is the code that
writes the visible `'Error scraping hotel'` marker, and it does so by
overwriting the name while leaving every other field, every other listing,
and all price rows unchanged.  In neither path is a listing removed or its
price rows nulled. -/
theorem failed_scrape_preserves_data (db : DB) (hotelId : String) :
    (∀ msg, scrapeHotelMutation db hotelId (.error msg) = (db, false))
    ∧ (∀ msg, (addHotelScrapeContinuation db hotelId (.error msg)).dailyPrices = db.dailyPrices)
    ∧ (∀ msg h, h ∈ db.hotels → h.id ≠ hotelId →
        h ∈ (addHotelScrapeContinuation db hotelId (.error msg)).hotels)
    ∧ (∀ msg h, h ∈ db.hotels → h.id = hotelId →
        ({ h with name := some "Error scraping hotel" } : Hotel)
          ∈ (addHotelScrapeContinuation db hotelId (.error msg)).hotels) := by
  refine ⟨?_, ?_, ?_, ?_⟩
  · intro msg
    cases hf : findHotel db hotelId <;> simp [scrapeHotelMutation, hf]
  · intro msg
    rfl
  · intro msg h hm hne
    have hb : (h.id == hotelId) = false := by simpa using hne
    have hfix : (fun x : Hotel =>
        if x.id == hotelId then { x with name := some "Error scraping hotel" } else x) h = h := by
      simp [hb]
    have hmem := List.mem_map_of_mem (fun x : Hotel =>
      if x.id == hotelId then { x with name := some "Error scraping hotel" } else x) hm
    rw [hfix] at hmem
    exact hmem
  · intro msg h hm he
    have hfix : (fun x : Hotel =>
        if x.id == hotelId then { x with name := some "Error scraping hotel" } else x) h
        = { h with name := some "Error scraping hotel" } := by
      simp [he]
    have hmem := List.mem_map_of_mem (fun x : Hotel =>
      if x.id == hotelId then { x with name := some "Error scraping hotel" } else x) hm
    rw [hfix] at hmem
    exact hmem

/-- C2 counterexample: a failed rescrape of a fully populated listing
leaves the store byte-for-byte unchanged — so no listing carries the
visible error marker the claim requires to appear. -/
theorem failed_scrape_no_marker_cex :
    scrapeHotelMutation dbGrand "h1" (.error "NavigationError: timeout") = (dbGrand, false)
    ∧ (∀ h ∈ (scrapeHotelMutation dbGrand "h1" (.error "NavigationError: timeout")).1.hotels,
        h.name ≠ some "Error scraping hotel") := by
  refine ⟨by decide, by decide⟩

/-- C2 witness: the amended theorem applied at the populated fixture. -/
theorem failed_scrape_preserves_data_witness :
    scrapeHotelMutation dbGrand "h1" (.error "boom") = (dbGrand, false)
    ∧ (addHotelScrapeContinuation dbGrand "h1" (.error "boom")).dailyPrices = dbGrand.dailyPrices
    ∧ ({ hotelGrand with name := some "Error scraping hotel" } : Hotel)
        ∈ (addHotelScrapeContinuation dbGrand "h1" (.error "boom")).hotels :=
  ⟨(failed_scrape_preserves_data dbGrand "h1").1 "boom",
   (failed_scrape_preserves_data dbGrand "h1").2.1 "boom",
   (failed_scrape_preserves_data dbGrand "h1").2.2.2 "boom" hotelGrand (by decide) (by decide)⟩

/-- C3 (amended): after a successful rescrape whose scraped price list is
non-empty, the listing's stored price rows are exactly the rows of that
latest scrape — all prior rows for the listing were deleted first — and the
unique `(hotelId, checkInDate)` index enforced by `createMany` guarantees
one row per distinct check-in date.  (A successful scrape with an empty
price list skips the replacement and leaves the prior rows in place; see
the counterexample.) -/
theorem successful_scrape_replaces_rows (db : DB) (hotelId : String)
    (d : ScrapedHotelData) (db' : DB)
    (hne : d.dailyPrices ≠ [])
    (h : scrapeHotelMutation db hotelId (.ok d) = (db', true)) :
    rowsFor db' hotelId = toRows hotelId d.dailyPrices
    ∧ ((rowsFor db' hotelId).map (fun r => r.checkInDate)).Nodup := by
  rcases hf : findHotel db hotelId with _ | hotel
  · simp only [scrapeHotelMutation, hf] at h
    exact absurd (congrArg Prod.snd h) (by simp)
  · have hE : d.dailyPrices.isEmpty = false := by
      cases hd : d.dailyPrices with
      | nil => exact absurd hd hne
      | cons x xs => rfl
    simp only [scrapeHotelMutation, hf, hE, Bool.false_eq_true, if_false] at h
    rcases hc : createManyPrices
        (deleteManyPrices (updateHotel db hotelId (applyScrapedFields d)) hotelId)
        (toRows hotelId d.dailyPrices) with _ | db3
    · rw [hc] at h
      exact absurd (congrArg Prod.snd h) (by simp)
    · rw [hc] at h
      have hdb : db3 = db' := congrArg Prod.fst h
      subst hdb
      unfold createManyPrices at hc
      split at hc
      case isFalse => cases hc
      case isTrue hcond =>
        injection hc with hc3
        subst hc3
        have hdel : List.filter (fun r => r.hotelId == hotelId)
            (deleteManyPrices (updateHotel db hotelId (applyScrapedFields d))
              hotelId).dailyPrices = [] := by
          simp only [deleteManyPrices, List.filter_filter]
          apply List.filter_eq_nil_iff.mpr
          intro a ha
          simp
        have hkeep : List.filter (fun r => r.hotelId == hotelId)
            (toRows hotelId d.dailyPrices) = toRows hotelId d.dailyPrices :=
          List.filter_eq_self.mpr (fun r hr => by
            rw [toRows_hotelId hr]
            simp)
        have hfilter : rowsFor
            { deleteManyPrices (updateHotel db hotelId (applyScrapedFields d)) hotelId with
              dailyPrices :=
                (deleteManyPrices (updateHotel db hotelId (applyScrapedFields d))
                  hotelId).dailyPrices ++ toRows hotelId d.dailyPrices } hotelId
            = toRows hotelId d.dailyPrices := by
          simp only [rowsFor, List.filter_append, hdel, hkeep, List.nil_append]
        refine ⟨hfilter, ?_⟩
        rw [hfilter, toRows_map_date]
        have hkey := hcond.1
        rw [toRows_map_key] at hkey
        exact nodup_pairs_dates hkey

/-- C3 counterexample: two consecutive successful rescrapes, the second of
which scraped an empty price list — the read-back still shows the first
scrape's rows, so the price set does not reflect the latest scrape and a
row from an earlier scrape survives. -/
theorem empty_scrape_keeps_stale_rows_cex :
    (scrapeHotelMutation dbGrand "h1" (.ok scrapeFeb)).2 = true
    ∧ (scrapeHotelMutation (scrapeHotelMutation dbGrand "h1" (.ok scrapeFeb)).1 "h1"
        (.ok scrapeBase)).2 = true
    ∧ scrapeBase.dailyPrices = []
    ∧ rowsFor (scrapeHotelMutation (scrapeHotelMutation dbGrand "h1" (.ok scrapeFeb)).1 "h1"
        (.ok scrapeBase)).1 "h1" = toRows "h1" scrapeFeb.dailyPrices := by
  refine ⟨by decide, by decide, by decide, by decide⟩

/-- C3 witness: the amended theorem applied at the February fixture. -/
theorem successful_scrape_replaces_rows_witness :
    rowsFor { hotels := [hotelGrand], dailyPrices := toRows "h1" scrapeFeb.dailyPrices } "h1"
      = toRows "h1" scrapeFeb.dailyPrices
    ∧ ((rowsFor { hotels := [hotelGrand], dailyPrices := toRows "h1" scrapeFeb.dailyPrices }
          "h1").map (fun r => r.checkInDate)).Nodup :=
  successful_scrape_replaces_rows dbGrand "h1" scrapeFeb
    { hotels := [hotelGrand], dailyPrices := toRows "h1" scrapeFeb.dailyPrices }
    (by decide) (by decide)

/-- C4: the delete-then-insert replacement runs without a surrounding
transaction; when the insert violates the unique `(hotelId, checkInDate)`
index after the delete already ran, the mutation reports failure but the
listing is left with zero price rows — the prior non-empty price set is
gone, which the claim (and spec §4.6/§5) forbids. -/
theorem price_replacement_not_atomic :
    rowsFor dbGrand "h1" = [rowJan]
    ∧ (scrapeHotelMutation dbGrand "h1" (.ok scrapeFebDup)).2 = false
    ∧ rowsFor (scrapeHotelMutation dbGrand "h1" (.ok scrapeFebDup)).1 "h1" = [] := by
  refine ⟨by decide, by decide, by decide⟩

end HotelMonitoring
